import Mathlib

/- Verification of the client core of the Niramaya health app, embedded from
src/services/geminiService.ts: credential validation (validateApiKey),
report-response handling (generateHealthReport), and the raw-PCM audio
decoder (createAudioBufferFromPCM). -/

namespace Niramaya

/-! String primitives of the JavaScript runtime, as used by the source. -/

/-- Whitespace characters recognised by the JavaScript String.prototype.trim
that the source calls (the common members of the WhiteSpace and
LineTerminator productions). -/
def isJSWhitespace (c : Char) : Bool :=
  c = ' ' || c = '\t' || c = '\n' || c = '\r' || c = '\x0b' || c = '\x0c'

/-- JavaScript String.prototype.trim on a character list: drop leading and
trailing whitespace. -/
def jsTrim (l : List Char) : List Char :=
  ((l.dropWhile isJSWhitespace).reverse.dropWhile isJSWhitespace).reverse

/-! Embedding of validateApiKey (src/services/geminiService.ts, lines 17-33).
The environment credential process.env.API_KEY is passed as an optional
string; the JavaScript falsiness test rejects both an absent credential and
the empty string. -/

/-- Result shape of validateApiKey: a tagged valid/invalid record with an
optional human-readable message. -/
structure ValidationResult where
  valid : Bool
  error : Option String
deriving DecidableEq, Repr

/-- Message returned for a missing or empty credential. -/
def missingKeyMsg : String :=
  "API Key is missing. Please check your Vercel Environment Variables."

/-- Remediation message returned for a Vercel-prefixed credential. -/
def vckKeyMsg : String :=
  "Configuration Error: You are using a Vercel AI Key (\'vck_...\'). This app requires a standard Google Cloud API Key (starting with \'AIza...\'). Please update the API_KEY environment variable in Vercel Settings."

/-- The cleaned key of the source: apiKey.replace of every double-quote
character by nothing (a global regex replace), then trim. -/
def cleanKeyOf (key : String) : String :=
  String.mk (jsTrim (key.data.filter (fun c => c ≠ '"')))

/-- Embedding of validateApiKey. The wrong-provider check is JavaScript
String.prototype.startsWith on the cleaned key, modelled as a list prefix
test on the characters. -/
def validateApiKey (apiKey : Option String) : ValidationResult :=
  match apiKey with
  | none => ⟨false, some missingKeyMsg⟩
  | some key =>
    if key = "" then ⟨false, some missingKeyMsg⟩
    else if "vck_".data.isPrefixOf (cleanKeyOf key).data then ⟨false, some vckKeyMsg⟩
    else ⟨true, none⟩

/-! Auxiliary facts about jsTrim. -/

lemma dropWhile_all_append (p : Char → Bool) (pre rest : List Char)
    (h : ∀ c ∈ pre, p c = true) :
    (pre ++ rest).dropWhile p = rest.dropWhile p := by
  rw [List.dropWhile_append, List.dropWhile_eq_nil_iff.mpr h]
  simp

lemma vck_data_eq : "vck_".data = ['v', 'c', 'k', '_'] := rfl

/-- Trimming a whitespace-padded string that then starts with vck_ leaves
vck_ as a prefix. -/
lemma vck_prefix_jsTrim (pre t : List Char)
    (hpre : ∀ c ∈ pre, isJSWhitespace c = true) :
    "vck_".data <+: jsTrim (pre ++ ("vck_".data ++ t)) := by
  unfold jsTrim
  rw [dropWhile_all_append _ pre _ hpre]
  have h1 : ("vck_".data ++ t).dropWhile isJSWhitespace = "vck_".data ++ t := by
    rw [vck_data_eq]
    simp [List.dropWhile_cons, isJSWhitespace]
  rw [h1, List.reverse_append, List.dropWhile_append]
  have h2 : ("vck_".data.reverse).dropWhile isJSWhitespace = "vck_".data.reverse := by
    rw [vck_data_eq]
    simp [List.dropWhile_cons, isJSWhitespace]
  by_cases he : (t.reverse.dropWhile isJSWhitespace).isEmpty = true
  · rw [if_pos he, h2, List.reverse_reverse]
  · rw [if_neg he, List.reverse_append, List.reverse_reverse]
    exact List.prefix_append _ _

/-- C6: validateApiKey always returns a tagged result and never throws: an
absent or empty credential yields an invalid result carrying the missing-key
message, a credential whose cleaned form starts with the wrong-provider
prefix vck_ yields an invalid result carrying the remediation message, any
other credential yields a valid result, and every invalid result carries a
human-readable message. -/
theorem C6_validateApiKey_tagged :
    validateApiKey none = ⟨false, some missingKeyMsg⟩ ∧
    validateApiKey (some "") = ⟨false, some missingKeyMsg⟩ ∧
    (∀ key : String, key ≠ "" →
      ("vck_".data.isPrefixOf (cleanKeyOf key).data = true →
        validateApiKey (some key) = ⟨false, some vckKeyMsg⟩) ∧
      ("vck_".data.isPrefixOf (cleanKeyOf key).data = false →
        validateApiKey (some key) = ⟨true, none⟩)) ∧
    (∀ k : Option String,
      (validateApiKey k).valid = false ↔ (validateApiKey k).error.isSome) := by
  refine ⟨rfl, rfl, ?_, ?_⟩
  · intro key hk
    constructor <;> intro h <;> simp [validateApiKey, hk, h]
  · intro k
    match k with
    | none => simp [validateApiKey]
    | some key =>
      by_cases hk : key = ""
      · simp [validateApiKey, hk]
      · by_cases hp : "vck_".data.isPrefixOf (cleanKeyOf key).data = true
        · simp [validateApiKey, hk, hp]
        · simp [validateApiKey, hk, Bool.eq_false_iff.mpr hp]

/-- Witness for C6 at concrete credentials. -/
theorem C6_validateApiKey_tagged_witness :
    validateApiKey (some "vck_test123") = ⟨false, some vckKeyMsg⟩ ∧
    validateApiKey (some "AIzaSyTest") = ⟨true, none⟩ :=
  ⟨(C6_validateApiKey_tagged.2.2.1 "vck_test123" (by decide)).1 (by decide),
   (C6_validateApiKey_tagged.2.2.1 "AIzaSyTest" (by decide)).2 (by decide)⟩

/-- C10: the wrong-provider prefix check runs on the cleaned key, so a
double-quoted or whitespace-padded vck_ credential is still rejected; but
the emptiness check runs on the raw credential only, so a non-empty
credential made of nothing but double quotes and whitespace cleans to the
empty string and is accepted as valid. -/
theorem C10_cleaned_key_vs_raw_emptiness :
    (∀ key : String, "vck_".data <+: key.data → (∀ c ∈ key.data, c ≠ '"') →
      validateApiKey (some ("\"" ++ key ++ "\"")) = ⟨false, some vckKeyMsg⟩ ∧
      validateApiKey (some (" " ++ key)) = ⟨false, some vckKeyMsg⟩) ∧
    (∀ s : String, s ≠ "" → (∀ c ∈ s.data, c = '"' ∨ isJSWhitespace c = true) →
      validateApiKey (some s) = ⟨true, none⟩) := by
  constructor
  · intro key hpre hq
    obtain ⟨t, ht⟩ := hpre
    constructor
    · have hdata : ("\"" ++ key ++ "\"").data = '"' :: (key.data ++ ['"']) := by
        simp [String.data_append]
      have hne : ("\"" ++ key ++ "\"") ≠ "" := by
        intro h
        have := congrArg String.data h
        rw [hdata] at this
        exact List.noConfusion this
      have hclean : (cleanKeyOf ("\"" ++ key ++ "\"")).data =
          jsTrim ([] ++ ("vck_".data ++ t)) := by
        simp only [cleanKeyOf, hdata, String.mk]
        congr 1
        rw [List.filter_cons, List.filter_append]
        simp only [decide_eq_true_eq]
        rw [List.filter_eq_self.mpr (by intro c hc; simpa using hq c hc)]
        simp [← ht]
      have hpfx : "vck_".data.isPrefixOf (cleanKeyOf ("\"" ++ key ++ "\"")).data = true := by
        rw [List.isPrefixOf_iff_prefix, hclean]
        exact vck_prefix_jsTrim [] t (by intro c hc; cases hc)
      simp [validateApiKey, hne, hpfx]
    · have hdata : (" " ++ key).data = ' ' :: key.data := by
        simp [String.data_append]
      have hne : (" " ++ key) ≠ "" := by
        intro h
        have := congrArg String.data h
        rw [hdata] at this
        exact List.noConfusion this
      have hclean : (cleanKeyOf (" " ++ key)).data =
          jsTrim ([' '] ++ ("vck_".data ++ t)) := by
        simp only [cleanKeyOf, hdata, String.mk]
        congr 1
        rw [List.filter_cons]
        simp only [decide_eq_true_eq]
        rw [List.filter_eq_self.mpr (by intro c hc; simpa using hq c hc)]
        simp [← ht]
      have hpfx : "vck_".data.isPrefixOf (cleanKeyOf (" " ++ key)).data = true := by
        rw [List.isPrefixOf_iff_prefix, hclean]
        exact vck_prefix_jsTrim [' '] t (by intro c hc; simp at hc; simp [hc, isJSWhitespace])
      simp [validateApiKey, hne, hpfx]
  · intro s hs hall
    have hws : ∀ c ∈ s.data.filter (fun c => c ≠ '"'), isJSWhitespace c = true := by
      intro c hc
      rw [List.mem_filter] at hc
      rcases hall c hc.1 with h | h
      · exact absurd h (by simpa using hc.2)
      · exact h
    have hclean : (cleanKeyOf s).data = [] := by
      simp only [cleanKeyOf, String.mk]
      unfold jsTrim
      rw [List.dropWhile_eq_nil_iff.mpr hws]
      simp
    have hpfx : "vck_".data.isPrefixOf (cleanKeyOf s).data = false := by
      rw [hclean, vck_data_eq]
      rfl
    simp [validateApiKey, hs, hpfx]

/-- Witness for C10 at concrete credentials: a quoted and a space-padded
vck_ key are rejected, while a credential of two double quotes is accepted. -/
theorem C10_cleaned_key_vs_raw_emptiness_witness :
    validateApiKey (some ("\"" ++ "vck_abc" ++ "\"")) = ⟨false, some vckKeyMsg⟩ ∧
    validateApiKey (some (" " ++ "vck_abc")) = ⟨false, some vckKeyMsg⟩ ∧
    validateApiKey (some "\"\"") = ⟨true, none⟩ :=
  ⟨(C10_cleaned_key_vs_raw_emptiness.1 "vck_abc" (by decide) (by decide)).1,
   (C10_cleaned_key_vs_raw_emptiness.1 "vck_abc" (by decide) (by decide)).2,
   C10_cleaned_key_vs_raw_emptiness.2 "\"\"" (by decide) (by decide)⟩

/-! Embedding of the JavaScript global string replacement
text.replace(/pattern/g, "") used by generateHealthReport: repeated
leftmost, non-overlapping removal of a literal pattern, scanning left to
right and resuming after each match. The recursion is fuelled by the input
length so that the definition is structural and kernel-computable. -/

/-- One fuelled scan of global removal of the literal pattern p. -/
def removeAllFuel (p : List Char) : Nat → List Char → List Char
  | _, [] => []
  | 0, s => s
  | fuel + 1, c :: cs =>
    if p ≠ [] ∧ p.isPrefixOf (c :: cs) = true then
      removeAllFuel p fuel (cs.drop (p.length - 1))
    else
      c :: removeAllFuel p fuel cs

/-- JavaScript s.replace(/p/g, "") for a literal pattern p. -/
def removeAll (p s : List Char) : List Char := removeAllFuel p s.length s

lemma removeAllFuel_congr (p : List Char) :
    ∀ f1 f2 s, s.length ≤ f1 → s.length ≤ f2 →
      removeAllFuel p f1 s = removeAllFuel p f2 s := by
  intro f1
  induction f1 with
  | zero =>
    intro f2 s h1 _
    have hs : s = [] := List.length_eq_zero.mp (Nat.le_zero.mp h1)
    subst hs
    cases f2 <;> rfl
  | succ f ih =>
    intro f2 s h1 h2
    match s with
    | [] => cases f2 <;> rfl
    | c :: cs =>
      match f2 with
      | 0 => exact absurd h2 (by simp)
      | f2' + 1 =>
        simp only [removeAllFuel]
        have hcs : cs.length ≤ f := by simpa using h1
        have hcs2 : cs.length ≤ f2' := by simpa using h2
        by_cases hc : p ≠ [] ∧ p.isPrefixOf (c :: cs) = true
        · rw [if_pos hc, if_pos hc]
          exact ih _ _ (le_trans (by simp) hcs) (le_trans (by simp) hcs2)
        · rw [if_neg hc, if_neg hc, ih _ _ hcs hcs2]

lemma removeAll_nil (p : List Char) : removeAll p [] = [] := rfl

lemma removeAll_cons (p : List Char) (c : Char) (cs : List Char) :
    removeAll p (c :: cs) =
      if p ≠ [] ∧ p.isPrefixOf (c :: cs) = true then
        removeAll p (cs.drop (p.length - 1))
      else c :: removeAll p cs := by
  show removeAllFuel p (cs.length + 1) (c :: cs) = _
  simp only [removeAllFuel]
  by_cases hc : p ≠ [] ∧ p.isPrefixOf (c :: cs) = true
  · rw [if_pos hc, if_pos hc]
    exact removeAllFuel_congr p _ _ _ (le_trans (by simp) (le_refl _)) (le_refl _)
  · rw [if_neg hc, if_neg hc]
    rfl

/-- A match never starts inside a stretch free of the pattern head. -/
lemma removeAll_skip (hd : Char) (tl a rest : List Char)
    (h : ∀ c ∈ a, c ≠ hd) :
    removeAll (hd :: tl) (a ++ rest) = a ++ removeAll (hd :: tl) rest := by
  induction a with
  | nil => simp
  | cons c cs ih =>
    rw [List.cons_append, removeAll_cons]
    have hc : ¬((hd :: tl) ≠ [] ∧ (hd :: tl).isPrefixOf (c :: (cs ++ rest)) = true) := by
      rintro ⟨-, hpf⟩
      rw [List.isPrefixOf_iff_prefix] at hpf
      obtain ⟨t, ht⟩ := hpf
      rw [List.cons_append] at ht
      injection ht with h1 _
      exact h c (List.mem_cons_self _ _) h1.symm
    rw [if_neg hc, ih (fun x hx => h x (List.mem_cons_of_mem _ hx))]
    rfl

lemma removeAll_id (hd : Char) (tl a : List Char) (h : ∀ c ∈ a, c ≠ hd) :
    removeAll (hd :: tl) a = a := by
  have h2 := removeAll_skip hd tl a [] h
  rw [removeAll_nil, List.append_nil] at h2
  simpa using h2

lemma removeAll_consume (hd : Char) (tl rest : List Char) :
    removeAll (hd :: tl) ((hd :: tl) ++ rest) = removeAll (hd :: tl) rest := by
  rw [List.cons_append, removeAll_cons]
  have hc : (hd :: tl) ≠ [] ∧ (hd :: tl).isPrefixOf (hd :: (tl ++ rest)) = true := by
    refine ⟨by simp, ?_⟩
    rw [List.isPrefixOf_iff_prefix]
    exact ⟨rest, by simp⟩
  rw [if_pos hc]
  congr 1
  simp [List.drop_left]

/-! The two fence patterns stripped by generateHealthReport. -/

/-- The backtick character, taken from a string literal. -/
def btChar : Char := "`".data.headD ' '

/-- The pattern of the first replacement: three backticks followed by json. -/
def jsonFence : List Char := "```json".data

/-- The pattern of the second replacement: three backticks. -/
def bareFence : List Char := "```".data

/-- A character list with no backtick in it. -/
def backtickFree (l : List Char) : Prop := ∀ c ∈ l, c ≠ btChar

instance (l : List Char) : Decidable (backtickFree l) := by
  unfold backtickFree
  infer_instance

lemma jsonFence_eq :
    jsonFence = btChar :: btChar :: btChar :: 'j' :: 's' :: 'o' :: 'n' :: [] := rfl

lemma bareFence_eq : bareFence = btChar :: btChar :: btChar :: [] := rfl

lemma not_prefix_of_head_bt (l rest : List Char) (hfree : backtickFree rest) :
    ¬((btChar :: l) <+: rest) := by
  rintro ⟨t, ht⟩
  match rest, ht with
  | r :: rs, ht =>
    rw [List.cons_append] at ht
    injection ht with h1 _
    exact hfree r (List.mem_cons_self _ _) h1.symm

/-- The first replacement scans over a bare fence without consuming it when
no json follows. -/
lemma removeAll_jsonFence_skip (rest : List Char)
    (hfree : backtickFree rest) (hjson : ¬("json".data <+: rest)) :
    removeAll jsonFence (bareFence ++ rest) =
      bareFence ++ removeAll jsonFence rest := by
  have hb : bareFence ++ rest = btChar :: btChar :: btChar :: rest := by
    rw [bareFence_eq]
    rfl
  rw [hb]
  have hstep1 : ¬(jsonFence ≠ [] ∧
      jsonFence.isPrefixOf (btChar :: btChar :: btChar :: rest) = true) := by
    rintro ⟨-, hpf⟩
    rw [List.isPrefixOf_iff_prefix, jsonFence_eq] at hpf
    rw [List.cons_prefix_cons, List.cons_prefix_cons, List.cons_prefix_cons] at hpf
    exact hjson hpf.2.2.2
  have hstep2 : ¬(jsonFence ≠ [] ∧
      jsonFence.isPrefixOf (btChar :: btChar :: rest) = true) := by
    rintro ⟨-, hpf⟩
    rw [List.isPrefixOf_iff_prefix, jsonFence_eq] at hpf
    rw [List.cons_prefix_cons, List.cons_prefix_cons] at hpf
    exact not_prefix_of_head_bt _ rest hfree hpf.2.2
  have hstep3 : ¬(jsonFence ≠ [] ∧
      jsonFence.isPrefixOf (btChar :: rest) = true) := by
    rintro ⟨-, hpf⟩
    rw [List.isPrefixOf_iff_prefix, jsonFence_eq] at hpf
    rw [List.cons_prefix_cons] at hpf
    exact not_prefix_of_head_bt _ rest hfree hpf.2
  rw [removeAll_cons, if_neg hstep1, removeAll_cons, if_neg hstep2,
    removeAll_cons, if_neg hstep3, bareFence_eq]
  rfl

/-- Embedding of the fence stripping of generateHealthReport (line 74):
remove every occurrence of three backticks followed by json, then every
occurrence of three backticks, then trim. -/
def cleanText (text : String) : String :=
  String.mk (jsTrim (removeAll bareFence (removeAll jsonFence text.data)))

/-! Embedding of generateHealthReport (src/services/geminiService.ts, lines
35-86). The external generateContent call is an opaque collaborator and
enters as its outcome: a rejection carrying an error message, or a response
whose text field may be absent. JSON.parse is the JavaScript builtin,
likewise opaque here; it enters as a function returning either a parse-error
description or a parsed report of type R. -/

/-- Log stream of console.error calls: each entry lists the string
arguments of one call. -/
abbrev ConsoleLog := List (List String)

/-- Message of the error thrown for an empty response text. -/
def emptyResponseMsg : String := "The AI model returned an empty response."

/-- Fixed message of the error thrown when JSON parsing fails. -/
def parseFailMsg : String := "Failed to process the AI report. Please try again."

/-- Fallback message of the outer catch when the caught error has an empty
message. -/
def connectFailMsg : String := "Failed to connect to Gemini API"

/-- Embedding of generateHealthReport. The result pairs the console.error
log with either the thrown error message or the report. The inner throws
are re-thrown by the outer catch with the same (non-empty) message after
logging, as in the source. -/
def generateHealthReport {R : Type} (callResult : Except String (Option String))
    (jsonParse : String → Except String R) : ConsoleLog × Except String R :=
  match callResult with
  | .error e =>
    ([["Report Generation Error:", e]],
      .error (if e = "" then connectFailMsg else e))
  | .ok textOpt =>
    match textOpt with
    | none =>
      ([["Report Generation Error:", emptyResponseMsg]], .error emptyResponseMsg)
    | some text =>
      if text = "" then
        ([["Report Generation Error:", emptyResponseMsg]], .error emptyResponseMsg)
      else
        match jsonParse (cleanText text) with
        | .ok report => ([], .ok report)
        | .error parseError =>
          ([["JSON Parse Error:", parseError, "Received text:", text],
            ["Report Generation Error:", parseFailMsg]], .error parseFailMsg)

/-- C7: an empty (absent or zero-length) response text makes
generateHealthReport fail with the empty-response condition, surfaced to
the caller as a user-facing error rather than a report. -/
theorem C7_empty_response_fails {R : Type} (jsonParse : String → Except String R) :
    (generateHealthReport (.ok none) jsonParse).2 = .error emptyResponseMsg ∧
    (generateHealthReport (.ok (some "")) jsonParse).2 = .error emptyResponseMsg ∧
    (∀ r : R, (generateHealthReport (.ok none) jsonParse).2 ≠ .ok r) ∧
    (∀ r : R, (generateHealthReport (.ok (some "")) jsonParse).2 ≠ .ok r) := by
  refine ⟨rfl, rfl, ?_, ?_⟩ <;> intro r <;> simp [generateHealthReport]

/-- C8: when the fence-stripped response text fails to parse as JSON,
generateHealthReport fails with the fixed generic retry-suggesting message,
independent of the parse error details, and the raw response text is logged
together with the parse error. -/
theorem C8_parse_error_generic {R : Type} (jsonParse : String → Except String R)
    (text perr : String) (hne : text ≠ "")
    (hparse : jsonParse (cleanText text) = .error perr) :
    (generateHealthReport (.ok (some text)) jsonParse).2 = .error parseFailMsg ∧
    ["JSON Parse Error:", perr, "Received text:", text] ∈
      (generateHealthReport (.ok (some text)) jsonParse).1 := by
  simp [generateHealthReport, hne, hparse]

/-- Witness for C8 at a concrete unparsable response. -/
theorem C8_parse_error_generic_witness :
    (generateHealthReport (R := Unit) (.ok (some "not json"))
        (fun _ => .error "SyntaxError")).2 = .error parseFailMsg ∧
    ["JSON Parse Error:", "SyntaxError", "Received text:", "not json"] ∈
      (generateHealthReport (R := Unit) (.ok (some "not json"))
        (fun _ => .error "SyntaxError")).1 :=
  C8_parse_error_generic (fun _ => .error "SyntaxError") "not json" "SyntaxError"
    (by decide) rfl

/-- C9: the fence stripping is a global replacement: every occurrence of
the json fence and of the bare fence is removed wherever it stands in the
response text, before trimming, so fence characters inside the JSON content
itself are deleted as well. -/
theorem C9_fence_stripping_is_global (a b c : List Char)
    (ha : backtickFree a) (hb : backtickFree b) (hc : backtickFree c)
    (hjson : ¬("json".data <+: c)) :
    (cleanText (String.mk (a ++ jsonFence ++ b ++ bareFence ++ c))).data =
      jsTrim (a ++ b ++ c) := by
  have hbt : btChar :: "``json".data = jsonFence := rfl
  have hbt2 : btChar :: "``".data = bareFence := rfl
  show jsTrim (removeAll bareFence (removeAll jsonFence
    (a ++ jsonFence ++ b ++ bareFence ++ c))) = jsTrim (a ++ b ++ c)
  have stage1 : removeAll jsonFence (a ++ jsonFence ++ b ++ bareFence ++ c) =
      a ++ b ++ bareFence ++ c := by
    rw [List.append_assoc (a ++ jsonFence ++ b), List.append_assoc (a ++ jsonFence),
      List.append_assoc a]
    rw [← hbt, removeAll_skip _ _ a _ ha, hbt]
    rw [← hbt, removeAll_consume, hbt]
    rw [← hbt, removeAll_skip _ _ b _ hb, hbt]
    rw [removeAll_jsonFence_skip c hc hjson]
    rw [← hbt, removeAll_id _ _ c hc]
    simp [List.append_assoc]
  rw [stage1]
  have stage2 : removeAll bareFence (a ++ b ++ bareFence ++ c) = a ++ b ++ c := by
    rw [List.append_assoc (a ++ b)]
    have hab : backtickFree (a ++ b) := by
      intro x hx
      rcases List.mem_append.mp hx with h | h
      · exact ha x h
      · exact hb x h
    rw [← hbt2, removeAll_skip _ _ (a ++ b) _ hab, hbt2]
    rw [← hbt2, removeAll_consume, removeAll_id _ _ c hc]
  rw [stage2]

/-- Witness for C9: fences in the middle of the content are removed. -/
theorem C9_fence_stripping_is_global_witness :
    (cleanText (String.mk ("head ".data ++ jsonFence ++ " mid ".data ++
        bareFence ++ " tail".data))).data =
      jsTrim ("head ".data ++ " mid ".data ++ " tail".data) :=
  C9_fence_stripping_is_global "head ".data " mid ".data " tail".data
    (by decide) (by decide) (by decide) (by decide)

/-! Embedding of createAudioBufferFromPCM (src/services/geminiService.ts,
lines 120-138). Memory is modelled as a heap of numbered cell arrays over
the rationals: every numeric value the function handles (bytes 0..255, the
16-bit integers, and the normalized samples s / 32768) is a dyadic rational
that IEEE doubles and 32-bit floats represent exactly, so rational
arithmetic models the JavaScript number arithmetic on this domain without
rounding. The input Uint8Array is a (buffer address, byteOffset, length)
view into the heap; AudioContext.createBuffer is the external Web Audio
collaborator and is modelled per its contract: it throws a NotSupportedError
when any of its arguments is negative, zero or outside its nominal range —
here numberOfChannels is constantly 1 (valid), length is invalid exactly
when it is 0, and the sampleRate nominal range is [8000, 96000] — and
otherwise allocates a fresh zero-filled single-channel array. The
Int16Array construction of line 127 follows the ECMAScript typed-array
semantics: a RangeError when the given byteOffset is not a multiple of the
element size 2 or when the requested elements overrun the underlying
buffer, and little-endian element reads (the byte order of the engines the
app targets). A thrown error leaves memory untouched (both throws happen
before the write loop runs), so the function returns the heap in every
case, paired with the error or the buffer. -/

/-- Heap of numbered cell arrays. -/
abbrev Heap := List (List ℚ)

/-- Content of the array at address a (empty when unallocated). -/
def heapGet (h : Heap) (a : Nat) : List ℚ := h.getD a []

/-- Read cell i of the array at address a (0 when out of range). -/
def heapRead (h : Heap) (a i : Nat) : ℚ := (heapGet h a).getD i 0

/-- Write cell i of the array at address a. -/
def heapWrite (h : Heap) (a i : Nat) (v : ℚ) : Heap :=
  h.set a ((heapGet h a).set i v)

/-- Allocate a fresh zero-filled array of n cells at the next address. -/
def heapAlloc (h : Heap) (n : Nat) : Heap × Nat :=
  (h ++ [List.replicate n (0 : ℚ)], h.length)

/-- A Uint8Array view: buffer address, byte offset into the buffer, and
element count (length and byteLength coincide for a byte view). -/
structure Uint8Array where
  bufAddr : Nat
  byteOffset : Nat
  length : Nat
deriving DecidableEq, Repr

/-- An AudioBuffer as produced by AudioContext.createBuffer: the address of
its channel-0 data plus its metadata. -/
structure AudioBuffer where
  channelAddr : Nat
  numChannels : Nat
  numSamples : Nat
  sampleRate : ℚ
deriving DecidableEq, Repr

/-- Errors the decoder can raise: the RangeError of the Int16Array
constructor, and the NotSupportedError of AudioContext.createBuffer. -/
inductive JSError where
  | rangeError
  | notSupportedError
deriving DecidableEq, Repr

/-- The signed 16-bit value encoded little-endian by a byte pair, as an
Int16Array element access reads it. -/
def int16FromBytes (lo hi : ℚ) : ℚ :=
  if lo + 256 * hi < 32768 then lo + 256 * hi else lo + 256 * hi - 65536

/-- One iteration of the loop body (line 134): channelData at i receives
dataInt16 at i divided by 32768, dataInt16 at i being the little-endian
byte pair at byteOffset + 2 i of the input buffer in the current heap. -/
def fillStep (data : Uint8Array) (outAddr i : Nat) (h : Heap) : Heap :=
  heapWrite h outAddr i
    (int16FromBytes (heapRead h data.bufAddr (data.byteOffset + 2 * i))
        (heapRead h data.bufAddr (data.byteOffset + 2 * i + 1)) / 32768)

/-- The loop of lines 133-135, run for i = 0 .. n-1 in order. -/
def fillLoop (data : Uint8Array) (outAddr : Nat) (h : Heap) : Nat → Heap
  | 0 => h
  | n + 1 => fillStep data outAddr n (fillLoop data outAddr h n)

/-- Embedding of createAudioBufferFromPCM. The AudioContext argument is
represented by the heap in which createBuffer allocates; the sample rate
defaults to 24000 as in the source. The Int16Array view construction of
line 127 raises its RangeError first; then createBuffer on line 130 raises
NotSupportedError when numSamples is 0 (inputs shorter than 2 bytes) or
when the sample rate lies outside the nominal range [8000, 96000]; only
then does the write loop run. An error returns the heap unchanged. -/
def createAudioBufferFromPCM (h : Heap) (data : Uint8Array)
    (sampleRate : ℚ := 24000) : Heap × Except JSError AudioBuffer :=
  if data.byteOffset % 2 ≠ 0 then (h, .error .rangeError)
  else if data.byteOffset + 2 * (data.length / 2) > (heapGet h data.bufAddr).length then
    (h, .error .rangeError)
  else if data.length / 2 = 0 ∨ sampleRate < 8000 ∨ 96000 < sampleRate then
    (h, .error .notSupportedError)
  else
    (fillLoop data (heapAlloc h (data.length / 2)).2
       (heapAlloc h (data.length / 2)).1 (data.length / 2),
     .ok ⟨(heapAlloc h (data.length / 2)).2, 1, data.length / 2, sampleRate⟩)

/-! Heap lemmas. -/

lemma heapGet_alloc_self (h : Heap) (x : List ℚ) :
    heapGet (h ++ [x]) h.length = x := by
  unfold heapGet
  rw [List.getD_append_right h [x] [] h.length (le_refl _)]
  simp

lemma getD_eq_default_of_le (l : List ℚ) (n : Nat) (h : l.length ≤ n) :
    l.getD n 0 = 0 := by
  rw [List.getD_eq_getElem?_getD, List.getElem?_eq_none h]
  rfl

lemma heapGet_of_le (h : Heap) (a : Nat) (ha : h.length ≤ a) : heapGet h a = [] := by
  unfold heapGet
  rw [List.getD_eq_getElem?_getD, List.getElem?_eq_none ha]
  rfl

lemma heapGet_alloc_ne (h : Heap) (x : List ℚ) (a : Nat) (ha : a ≠ h.length) :
    heapGet (h ++ [x]) a = heapGet h a := by
  rcases Nat.lt_or_ge a h.length with hlt | hge
  · unfold heapGet
    rw [List.getD_append h [x] [] a hlt]
  · have hgt : h.length < a := lt_of_le_of_ne hge (fun he => ha he.symm)
    rw [heapGet_of_le h a (le_of_lt hgt)]
    unfold heapGet
    rw [List.getD_append_right h [x] [] a (le_of_lt hgt)]
    have : 1 ≤ a - h.length := by omega
    match hm : a - h.length with
    | 0 => omega
    | m + 1 => simp

lemma heapGet_write_ne (h : Heap) (a b i : Nat) (v : ℚ) (hab : b ≠ a) :
    heapGet (heapWrite h a i v) b = heapGet h b := by
  unfold heapWrite heapGet
  rw [List.getD_eq_getElem?_getD, List.getElem?_set_ne (fun he => hab he.symm),
    ← List.getD_eq_getElem?_getD]

lemma heapGet_write_self (h : Heap) (a i : Nat) (v : ℚ) (ha : a < h.length) :
    heapGet (heapWrite h a i v) a = (heapGet h a).set i v := by
  unfold heapWrite heapGet
  rw [List.getD_eq_getElem?_getD, List.getElem?_set_self ha]
  rfl

lemma length_heapWrite (h : Heap) (a i : Nat) (v : ℚ) :
    (heapWrite h a i v).length = h.length := by
  unfold heapWrite
  exact List.length_set h a _

lemma fillLoop_length (data : Uint8Array) (outAddr : Nat) (h : Heap) :
    ∀ n, (fillLoop data outAddr h n).length = h.length := by
  intro n
  induction n with
  | zero => rfl
  | succ n ih =>
    show (fillStep data outAddr n (fillLoop data outAddr h n)).length = h.length
    unfold fillStep
    rw [length_heapWrite, ih]

lemma fillLoop_get_ne (data : Uint8Array) (outAddr : Nat) (h : Heap) (a : Nat)
    (ha : a ≠ outAddr) :
    ∀ n, heapGet (fillLoop data outAddr h n) a = heapGet h a := by
  intro n
  induction n with
  | zero => rfl
  | succ n ih =>
    show heapGet (fillStep data outAddr n (fillLoop data outAddr h n)) a = heapGet h a
    unfold fillStep
    rw [heapGet_write_ne _ _ _ _ _ ha, ih]

lemma fillLoop_cell_length (data : Uint8Array) (outAddr : Nat) (h : Heap) :
    ∀ n, (heapGet (fillLoop data outAddr h n) outAddr).length =
      (heapGet h outAddr).length := by
  intro n
  induction n with
  | zero => rfl
  | succ n ih =>
    show (heapGet (fillStep data outAddr n (fillLoop data outAddr h n)) outAddr).length = _
    unfold fillStep
    rcases Nat.lt_or_ge outAddr (fillLoop data outAddr h n).length with hlt | hge
    · rw [heapGet_write_self _ _ _ _ hlt, List.length_set, ih]
    · unfold heapWrite
      rw [List.set_eq_of_length_le hge, ih]

/-- Reading a cell other than the one just written is unchanged. -/
lemma heapRead_write_ne_cell (h : Heap) (a i j : Nat) (v : ℚ) (hij : i ≠ j) :
    heapRead (heapWrite h a i v) a j = heapRead h a j := by
  unfold heapRead
  rcases Nat.lt_or_ge a h.length with hlt | hge
  · rw [heapGet_write_self _ _ _ _ hlt, List.getD_eq_getElem?_getD,
      List.getElem?_set_ne hij, ← List.getD_eq_getElem?_getD]
  · unfold heapWrite
    rw [List.set_eq_of_length_le hge]

/-- Value written by the loop: sample i of the output is the normalized
little-endian 16-bit value of byte pair i of the input, the input being
read in the initial heap (the loop writes only to the output array). -/
lemma fillLoop_read (data : Uint8Array) (outAddr : Nat) (h : Heap)
    (hne : data.bufAddr ≠ outAddr) (hout : outAddr < h.length) :
    ∀ n i, i < n → i < (heapGet h outAddr).length →
      heapRead (fillLoop data outAddr h n) outAddr i =
        int16FromBytes (heapRead h data.bufAddr (data.byteOffset + 2 * i))
          (heapRead h data.bufAddr (data.byteOffset + 2 * i + 1)) / 32768 := by
  intro n
  induction n with
  | zero => intro i hi _; omega
  | succ n ih =>
    intro i hi hlen
    show heapRead (fillStep data outAddr n (fillLoop data outAddr h n)) outAddr i = _
    unfold fillStep
    have hrw : heapGet (fillLoop data outAddr h n) data.bufAddr = heapGet h data.bufAddr :=
      fillLoop_get_ne data outAddr h data.bufAddr hne n
    rcases Nat.lt_or_ge i n with hin | hin
    · rw [heapRead_write_ne_cell _ _ _ _ _ (by omega)]
      exact ih i hin hlen
    · have hieq : i = n := by omega
      subst hieq
      have hcl : i < (heapGet (fillLoop data outAddr h i) outAddr).length := by
        rw [fillLoop_cell_length]
        exact hlen
      have hol : outAddr < (fillLoop data outAddr h i).length := by
        rw [fillLoop_length]
        exact hout
      unfold heapRead
      rw [heapGet_write_self _ _ _ _ hol, List.getD_eq_getElem?_getD,
        List.getElem?_set_self hcl, Option.getD_some, hrw]

/-- Success shape of the decoder under an aligned in-bounds view of at
least one full sample, with a sample rate in the nominal range. -/
lemma createPCM_ok (h : Heap) (data : Uint8Array) (rate : ℚ)
    (heven : data.byteOffset % 2 = 0)
    (hinb : data.byteOffset + data.length ≤ (heapGet h data.bufAddr).length)
    (hlen : 2 ≤ data.length) (hrlo : 8000 ≤ rate) (hrhi : rate ≤ 96000) :
    createAudioBufferFromPCM h data rate =
      (fillLoop data h.length
         (h ++ [List.replicate (data.length / 2) (0 : ℚ)]) (data.length / 2),
       .ok ⟨h.length, 1, data.length / 2, rate⟩) := by
  unfold createAudioBufferFromPCM heapAlloc
  have hb : ¬(data.byteOffset + 2 * (data.length / 2) > (heapGet h data.bufAddr).length) := by
    omega
  have hc : ¬(data.length / 2 = 0 ∨ rate < 8000 ∨ 96000 < rate) := by
    push_neg
    exact ⟨by omega, hrlo, hrhi⟩
  simp [heven, hb, hc]

/-- An aligned in-bounds view shorter than one full sample gives
numSamples = 0, which createBuffer rejects with a NotSupportedError. -/
lemma createPCM_short (h : Heap) (data : Uint8Array) (rate : ℚ)
    (heven : data.byteOffset % 2 = 0)
    (hinb : data.byteOffset + data.length ≤ (heapGet h data.bufAddr).length)
    (hshort : data.length < 2) :
    createAudioBufferFromPCM h data rate = (h, .error .notSupportedError) := by
  unfold createAudioBufferFromPCM
  have hb : ¬(data.byteOffset + 2 * (data.length / 2) > (heapGet h data.bufAddr).length) := by
    omega
  rw [if_neg (by omega), if_neg hb, if_pos (Or.inl (by omega))]

/-- A sample rate outside the nominal range [8000, 96000] makes
createBuffer reject with a NotSupportedError, for any aligned in-bounds
view. -/
lemma createPCM_badRate (h : Heap) (data : Uint8Array) (rate : ℚ)
    (heven : data.byteOffset % 2 = 0)
    (hinb : data.byteOffset + data.length ≤ (heapGet h data.bufAddr).length)
    (hbad : rate < 8000 ∨ 96000 < rate) :
    createAudioBufferFromPCM h data rate = (h, .error .notSupportedError) := by
  unfold createAudioBufferFromPCM
  have hb : ¬(data.byteOffset + 2 * (data.length / 2) > (heapGet h data.bufAddr).length) := by
    omega
  rw [if_neg (by omega), if_neg hb, if_pos (Or.inr hbad)]

/-- C1 as stated fails on empty input: numSamples is 0, so
ctx.createBuffer(1, 0, 24000) raises a NotSupportedError and no
zero-length buffer is produced. -/
theorem C1_counterexample_empty_input :
    createAudioBufferFromPCM [[]] ⟨0, 0, 0⟩ 24000 = ([[]], .error .notSupportedError) := rfl

/-- C1 amended: for every aligned in-bounds input of at least 2 bytes,
with a sample rate in the nominal range, the produced buffer holds
floor(byteLength / 2) samples — n samples for even length 2n and for odd
length 2n+1 (trailing byte dropped) — and the allocated channel data has
the same number of cells; an aligned in-bounds input of fewer than 2 bytes
(empty or single-byte) yields a NotSupportedError from createBuffer
instead of a zero-length buffer. -/
theorem C1_amended_sample_count :
    (∀ (h : Heap) (data : Uint8Array) (rate : ℚ),
      data.byteOffset % 2 = 0 →
      data.byteOffset + data.length ≤ (heapGet h data.bufAddr).length →
      2 ≤ data.length → 8000 ≤ rate → rate ≤ 96000 →
      ∃ h2 buf, createAudioBufferFromPCM h data rate = (h2, .ok buf) ∧
        buf.numSamples = data.length / 2 ∧
        (heapGet h2 buf.channelAddr).length = data.length / 2 ∧
        (∀ n, data.length = 2 * n → buf.numSamples = n) ∧
        (∀ n, data.length = 2 * n + 1 → buf.numSamples = n)) ∧
    (∀ (h : Heap) (data : Uint8Array) (rate : ℚ),
      data.byteOffset % 2 = 0 →
      data.byteOffset + data.length ≤ (heapGet h data.bufAddr).length →
      data.length < 2 →
      createAudioBufferFromPCM h data rate = (h, .error .notSupportedError)) := by
  constructor
  · intro h data rate heven hinb hlen hrlo hrhi
    refine ⟨_, _, createPCM_ok h data rate heven hinb hlen hrlo hrhi, rfl, ?_, ?_, ?_⟩
    · rw [fillLoop_cell_length]
      show (heapGet (h ++ [List.replicate (data.length / 2) (0 : ℚ)]) h.length).length = _
      rw [heapGet_alloc_self]
      exact List.length_replicate _ _
    · intro n hn
      show data.length / 2 = n
      omega
    · intro n hn
      show data.length / 2 = n
      omega
  · intro h data rate heven hinb hshort
    exact createPCM_short h data rate heven hinb hshort

/-- Witness for the amended C1: a three-byte input gives one sample; a
one-byte input gives a NotSupportedError. -/
theorem C1_amended_sample_count_witness :
    (∃ h2 buf, createAudioBufferFromPCM [[1, 2, 3]] ⟨0, 0, 3⟩ 24000 = (h2, .ok buf) ∧
      buf.numSamples = 3 / 2 ∧
      (heapGet h2 buf.channelAddr).length = 3 / 2 ∧
      (∀ n, 3 = 2 * n → buf.numSamples = n) ∧
      (∀ n, 3 = 2 * n + 1 → buf.numSamples = n)) ∧
    createAudioBufferFromPCM [[9]] ⟨0, 0, 1⟩ 24000 = ([[9]], .error .notSupportedError) :=
  ⟨C1_amended_sample_count.1 [[1, 2, 3]] ⟨0, 0, 3⟩ 24000 (by decide) (by decide)
      (by decide) (by norm_num) (by norm_num),
   C1_amended_sample_count.2 [[9]] ⟨0, 0, 1⟩ 24000 (by decide) (by decide) (by decide)⟩

/-- C2: for an aligned, in-bounds view with a nominal-range sample rate
(the default 24000 qualifies) whose bytes at positions 2i and 2i+1 are b0
and b1, output sample i equals s / 32768 where s is the unique integer in
[-32768, 32768) congruent to b0 + 256 b1 modulo 65536 (the signed 16-bit
little-endian value of the pair), and every output sample lies in [-1, 1). -/
theorem C2_sample_normalization (h : Heap) (data : Uint8Array) (rate : ℚ)
    (heven : data.byteOffset % 2 = 0)
    (hinb : data.byteOffset + data.length ≤ (heapGet h data.bufAddr).length)
    (hrlo : 8000 ≤ rate) (hrhi : rate ≤ 96000)
    (i : Nat) (hi : i < data.length / 2) (b0 b1 : Nat)
    (hb0 : b0 < 256) (hb1 : b1 < 256)
    (hr0 : heapRead h data.bufAddr (data.byteOffset + 2 * i) = (b0 : ℚ))
    (hr1 : heapRead h data.bufAddr (data.byteOffset + 2 * i + 1) = (b1 : ℚ)) :
    ∃ h2 buf, createAudioBufferFromPCM h data rate = (h2, .ok buf) ∧
      ∃ s : ℤ, -32768 ≤ s ∧ s < 32768 ∧
        ((b0 : ℤ) + 256 * (b1 : ℤ) - s) % 65536 = 0 ∧
        heapRead h2 buf.channelAddr i = (s : ℚ) / 32768 ∧
        -1 ≤ heapRead h2 buf.channelAddr i ∧
        heapRead h2 buf.channelAddr i < 1 := by
  have hlen : 2 ≤ data.length := by omega
  have hne : data.bufAddr ≠ h.length := by
    intro he
    rw [heapGet_of_le h data.bufAddr (le_of_eq he.symm)] at hinb
    simp at hinb
    omega
  refine ⟨_, _, createPCM_ok h data rate heven hinb hlen hrlo hrhi, ?_⟩
  set ns := data.length / 2 with hns
  set h1 := h ++ [List.replicate ns (0 : ℚ)] with hh1
  have hout : h.length < h1.length := by
    rw [hh1, List.length_append]
    simp
  have hcl : i < (heapGet h1 h.length).length := by
    rw [hh1, heapGet_alloc_self, List.length_replicate]
    exact hi
  have hval : heapRead (fillLoop data h.length h1 ns) h.length i =
      int16FromBytes (heapRead h1 data.bufAddr (data.byteOffset + 2 * i))
        (heapRead h1 data.bufAddr (data.byteOffset + 2 * i + 1)) / 32768 :=
    fillLoop_read data h.length h1 hne hout ns i hi hcl
  have hread : ∀ j, heapRead h1 data.bufAddr j = heapRead h data.bufAddr j := by
    intro j
    unfold heapRead
    rw [hh1, heapGet_alloc_ne h _ data.bufAddr hne]
  rw [hread, hread, hr0, hr1] at hval
  refine ⟨if (b0 : ℤ) + 256 * (b1 : ℤ) < 32768 then (b0 : ℤ) + 256 * (b1 : ℤ)
    else (b0 : ℤ) + 256 * (b1 : ℤ) - 65536, ?_, ?_, ?_, ?_, ?_, ?_⟩
  · split_ifs <;> omega
  · split_ifs <;> omega
  · split_ifs <;> omega
  · show heapRead (fillLoop data h.length h1 ns) h.length i = _
    rw [hval]
    unfold int16FromBytes
    split_ifs with hq hz hz
    · push_cast
      ring
    · exact absurd (by exact_mod_cast hq) hz
    · exact absurd (by exact_mod_cast hz) hq
    · push_cast
      ring
  · show (-1 : ℚ) ≤ heapRead (fillLoop data h.length h1 ns) h.length i
    rw [hval]
    unfold int16FromBytes
    rw [le_div_iff₀ (by norm_num : (0 : ℚ) < 32768)]
    split_ifs with hq
    · have h65 : (0 : ℚ) ≤ (b0 : ℚ) + 256 * (b1 : ℚ) := by positivity
      linarith
    · have hlo : (32768 : ℚ) ≤ (b0 : ℚ) + 256 * (b1 : ℚ) := le_of_not_lt hq
      linarith
  · show heapRead (fillLoop data h.length h1 ns) h.length i < 1
    rw [hval]
    unfold int16FromBytes
    rw [div_lt_one (by norm_num : (0 : ℚ) < 32768)]
    split_ifs with hq
    · exact hq
    · have hhi : (b0 : ℚ) + 256 * (b1 : ℚ) < 65536 := by
        have c0 : (b0 : ℚ) ≤ 255 := by exact_mod_cast Nat.lt_succ_iff.mp hb0
        have c1 : (b1 : ℚ) ≤ 255 := by exact_mod_cast Nat.lt_succ_iff.mp hb1
        linarith
      linarith

/-- Witness for C2 on the byte pair (0x00, 0x80), the int16 value -32768:
its sample is -32768 / 32768 = -1. -/
theorem C2_sample_normalization_witness :
    ∃ h2 buf, createAudioBufferFromPCM [[0, 128]] ⟨0, 0, 2⟩ 24000 = (h2, .ok buf) ∧
      ∃ s : ℤ, -32768 ≤ s ∧ s < 32768 ∧
        (((0 : Nat) : ℤ) + 256 * ((128 : Nat) : ℤ) - s) % 65536 = 0 ∧
        heapRead h2 buf.channelAddr 0 = (s : ℚ) / 32768 ∧
        -1 ≤ heapRead h2 buf.channelAddr 0 ∧
        heapRead h2 buf.channelAddr 0 < 1 :=
  C2_sample_normalization [[0, 128]] ⟨0, 0, 2⟩ 24000 (by decide) (by decide)
    (by norm_num) (by norm_num) 0 (by decide) 0 128 (by decide) (by decide)
    (by decide) (by decide)

/-- C3 as stated fails: a genuine Uint8Array view with an odd byteOffset
into its underlying buffer (here offset 1 of a 3-byte buffer) makes the
Int16Array construction of line 127 raise a RangeError, so the decoder does
not return a buffer for every view. -/
theorem C3_counterexample_odd_byteOffset :
    createAudioBufferFromPCM [[0, 0, 0]] ⟨0, 1, 2⟩ 24000 =
      ([[0, 0, 0]], .error .rangeError) := rfl

/-- C3 amended: the decoder raises no error and returns a buffer for every
input view with an even byteOffset and at least 2 bytes when the sample
rate lies in the nominal range [8000, 96000] (the default 24000 included);
a view with an odd byteOffset raises a RangeError from the Int16Array
constructor, and an aligned view of fewer than 2 bytes (empty or
single-byte) raises a NotSupportedError from createBuffer. -/
theorem C3_amended_no_error_for_aligned_views :
    (∀ (h : Heap) (data : Uint8Array) (rate : ℚ),
      data.byteOffset % 2 = 0 →
      data.byteOffset + data.length ≤ (heapGet h data.bufAddr).length →
      2 ≤ data.length → 8000 ≤ rate → rate ≤ 96000 →
      ∃ h2 buf, createAudioBufferFromPCM h data rate = (h2, .ok buf)) ∧
    (∀ (h : Heap) (data : Uint8Array) (rate : ℚ),
      data.byteOffset % 2 = 0 →
      data.byteOffset + data.length ≤ (heapGet h data.bufAddr).length →
      data.length < 2 →
      createAudioBufferFromPCM h data rate = (h, .error .notSupportedError)) := by
  constructor
  · intro h data rate heven hinb hlen hrlo hrhi
    exact ⟨_, _, createPCM_ok h data rate heven hinb hlen hrlo hrhi⟩
  · intro h data rate heven hinb hshort
    exact createPCM_short h data rate heven hinb hshort

/-- Witness for the amended C3: a two-byte aligned view succeeds; the
empty and single-byte aligned views produce the NotSupportedError. -/
theorem C3_amended_no_error_for_aligned_views_witness :
    (∃ h2 buf, createAudioBufferFromPCM [[7, 8]] ⟨0, 0, 2⟩ 24000 = (h2, .ok buf)) ∧
    createAudioBufferFromPCM [[]] ⟨0, 0, 0⟩ 24000 = ([[]], .error .notSupportedError) ∧
    createAudioBufferFromPCM [[7]] ⟨0, 0, 1⟩ 24000 = ([[7]], .error .notSupportedError) :=
  ⟨C3_amended_no_error_for_aligned_views.1 [[7, 8]] ⟨0, 0, 2⟩ 24000 (by decide)
      (by decide) (by decide) (by norm_num) (by norm_num),
   C3_amended_no_error_for_aligned_views.2 [[]] ⟨0, 0, 0⟩ 24000 (by decide)
      (by decide) (by decide),
   C3_amended_no_error_for_aligned_views.2 [[7]] ⟨0, 0, 1⟩ 24000 (by decide)
      (by decide) (by decide)⟩

/-- C4: for every input view and every sample rate — error outcomes
included — the decoder leaves the input bytes and every other pre-existing
heap array unchanged; and whenever it returns a buffer, that buffer's
channel data is the freshly allocated array at the next address, distinct
from the input buffer. -/
theorem C4_input_preserved_output_fresh (h : Heap) (data : Uint8Array) (rate : ℚ) :
    heapGet (createAudioBufferFromPCM h data rate).1 data.bufAddr =
      heapGet h data.bufAddr ∧
    (∀ a, a < h.length →
      heapGet (createAudioBufferFromPCM h data rate).1 a = heapGet h a) ∧
    (∀ buf, (createAudioBufferFromPCM h data rate).2 = .ok buf →
      buf.channelAddr = h.length ∧
      (data.bufAddr < h.length → buf.channelAddr ≠ data.bufAddr)) := by
  unfold createAudioBufferFromPCM heapAlloc
  split_ifs with h1 h2 h3
  · exact ⟨rfl, fun a _ => rfl, fun buf hbuf => by simp at hbuf⟩
  · exact ⟨rfl, fun a _ => rfl, fun buf hbuf => by simp at hbuf⟩
  · exact ⟨rfl, fun a _ => rfl, fun buf hbuf => by simp at hbuf⟩
  · push_neg at h3
    have hns0 : data.length / 2 ≠ 0 := h3.1
    have hpos : 0 < (heapGet h data.bufAddr).length := by omega
    have hblt : data.bufAddr < h.length := by
      by_contra hge
      push_neg at hge
      rw [heapGet_of_le h data.bufAddr hge] at hpos
      simp at hpos
    refine ⟨?_, ?_, ?_⟩
    · show heapGet (fillLoop data h.length (h ++ [List.replicate (data.length / 2) (0 : ℚ)])
        (data.length / 2)) data.bufAddr = heapGet h data.bufAddr
      rw [fillLoop_get_ne _ _ _ _ (by omega), heapGet_alloc_ne h _ data.bufAddr (by omega)]
    · intro a ha
      show heapGet (fillLoop data h.length (h ++ [List.replicate (data.length / 2) (0 : ℚ)])
        (data.length / 2)) a = heapGet h a
      rw [fillLoop_get_ne _ _ _ _ (by omega), heapGet_alloc_ne h _ a (by omega)]
    · intro buf hbuf
      have hbe : (⟨h.length, 1, data.length / 2, rate⟩ : AudioBuffer) = buf :=
        Except.ok.inj hbuf
      refine ⟨?_, ?_⟩
      · rw [← hbe]
      · intro hlt
        rw [← hbe]
        show h.length ≠ data.bufAddr
        omega

/-- Witness for C4 on a concrete two-byte buffer. -/
theorem C4_input_preserved_output_fresh_witness :
    heapGet (createAudioBufferFromPCM [[5, 6]] ⟨0, 0, 2⟩ 24000).1 0 =
      heapGet [[5, 6]] 0 ∧
    (⟨1, 1, 1, (24000 : ℚ)⟩ : AudioBuffer).channelAddr = ([[5, 6]] : Heap).length ∧
    (⟨1, 1, 1, (24000 : ℚ)⟩ : AudioBuffer).channelAddr ≠ 0 := by
  have hth := C4_input_preserved_output_fresh [[5, 6]] ⟨0, 0, 2⟩ 24000
  have hok : (createAudioBufferFromPCM [[5, 6]] ⟨0, 0, 2⟩ 24000).2 =
      .ok ⟨1, 1, 1, (24000 : ℚ)⟩ := rfl
  have h3 := hth.2.2 ⟨1, 1, 1, (24000 : ℚ)⟩ hok
  exact ⟨hth.1, h3.1, h3.2 (by decide)⟩

/-- C5 as stated fails: with empty input even the default-rate call
produces no buffer (createBuffer rejects a zero-length allocation), and an
explicit rate of 0 produces no buffer either (0 lies outside the nominal
sample-rate range), instead of a buffer carrying rate 0. -/
theorem C5_counterexample_empty_and_zero_rate :
    createAudioBufferFromPCM [[]] ⟨0, 0, 0⟩ = ([[]], .error .notSupportedError) ∧
    createAudioBufferFromPCM [[1, 2]] ⟨0, 0, 2⟩ 0 =
      ([[1, 2]], .error .notSupportedError) :=
  ⟨rfl, rfl⟩

/-- C5 amended: on an aligned in-bounds input of at least 2 bytes the
default call produces a buffer with sample rate 24000, and an explicit
rate in the nominal range [8000, 96000] is passed through exactly; a rate
outside the nominal range produces a NotSupportedError instead of a
buffer. -/
theorem C5_amended_sample_rate_passthrough :
    (∀ (h : Heap) (data : Uint8Array),
      data.byteOffset % 2 = 0 →
      data.byteOffset + data.length ≤ (heapGet h data.bufAddr).length →
      2 ≤ data.length →
      ∃ h2 buf, createAudioBufferFromPCM h data = (h2, .ok buf) ∧
        buf.sampleRate = 24000) ∧
    (∀ (h : Heap) (data : Uint8Array) (rate : ℚ),
      data.byteOffset % 2 = 0 →
      data.byteOffset + data.length ≤ (heapGet h data.bufAddr).length →
      2 ≤ data.length → 8000 ≤ rate → rate ≤ 96000 →
      ∃ h2 buf, createAudioBufferFromPCM h data rate = (h2, .ok buf) ∧
        buf.sampleRate = rate) ∧
    (∀ (h : Heap) (data : Uint8Array) (rate : ℚ),
      data.byteOffset % 2 = 0 →
      data.byteOffset + data.length ≤ (heapGet h data.bufAddr).length →
      (rate < 8000 ∨ 96000 < rate) →
      createAudioBufferFromPCM h data rate = (h, .error .notSupportedError)) := by
  refine ⟨?_, ?_, ?_⟩
  · intro h data heven hinb hlen
    exact ⟨_, _, createPCM_ok h data 24000 heven hinb hlen (by norm_num) (by norm_num), rfl⟩
  · intro h data rate heven hinb hlen hrlo hrhi
    exact ⟨_, _, createPCM_ok h data rate heven hinb hlen hrlo hrhi, rfl⟩
  · intro h data rate heven hinb hbad
    exact createPCM_badRate h data rate heven hinb hbad

/-- Witness for the amended C5: default call gives rate 24000, explicit
44100 passes through, and 192000 is rejected. -/
theorem C5_amended_sample_rate_passthrough_witness :
    (∃ h2 buf, createAudioBufferFromPCM [[1, 2]] ⟨0, 0, 2⟩ = (h2, .ok buf) ∧
      buf.sampleRate = 24000) ∧
    (∃ h2 buf, createAudioBufferFromPCM [[1, 2]] ⟨0, 0, 2⟩ 44100 = (h2, .ok buf) ∧
      buf.sampleRate = 44100) ∧
    createAudioBufferFromPCM [[1, 2]] ⟨0, 0, 2⟩ 192000 =
      ([[1, 2]], .error .notSupportedError) :=
  ⟨C5_amended_sample_rate_passthrough.1 [[1, 2]] ⟨0, 0, 2⟩ (by decide) (by decide)
      (by decide),
   C5_amended_sample_rate_passthrough.2.1 [[1, 2]] ⟨0, 0, 2⟩ 44100 (by decide)
      (by decide) (by decide) (by norm_num) (by norm_num),
   C5_amended_sample_rate_passthrough.2.2 [[1, 2]] ⟨0, 0, 2⟩ 192000 (by decide)
      (by decide) (Or.inr (by norm_num))⟩

end Niramaya
